import Mathlib

/-!
Shallow embedding of the core data pipeline of a Spotify streaming-history
summariser (modules `data_processing.py` and `statistics.py`).

Python `datetime` values are modelled by `PDateTime`: a record of the calendar
observations the code reads (`year`, `month`, `day`, `hour`, `weekday`) plus a
position `seconds` on an absolute timeline, which models comparison and
subtraction of `datetime` values.  `datetime.fromisoformat(s.replace("Z",
"+00:00"))` and `datetime.now()` are standard-library calls, so they are
modelled abstractly by an environment `Env` carrying a parse function, the
run's current time, and an `isoformat` rendering.

Python dictionaries, `defaultdict`s, `Counter`s and sets are modelled by
insertion-ordered association lists and insertion-ordered lists, matching
Python's insertion-order semantics.  Python's float arithmetic in the
validator's percentage test and in the personality percentages is modelled by
exact arithmetic (`Nat`/`ℚ`).
-/

/-- Model of a parsed Python `datetime`: the calendar fields the code reads,
plus a linear timeline position (`seconds`) modelling ordering/subtraction. -/
structure PDateTime where
  year : Int
  month : Int
  day : Int
  hour : Int
  weekday : Int
  seconds : Int
deriving DecidableEq, Repr

/-- The `(year, month, day)` triple, modelling Python's `datetime.date()`. -/
def PDateTime.date (d : PDateTime) : Int × Int × Int :=
  (d.year, d.month, d.day)

/-- Environment of standard-library effects used by the pipeline:
`parse s` models `datetime.fromisoformat(s.replace("Z", "+00:00"))` (`none` on
`ValueError`), `now` models `datetime.now()`, and `iso` models
`datetime.isoformat()`. -/
structure Env where
  parse : String → Option PDateTime
  now : PDateTime
  iso : PDateTime → String

/-- A streaming-history entry, with the fields the pipeline reads.  A field
that is absent (or JSON `null`) is `none`; `skipped`/`offline` hold the
truthiness of the corresponding optional flags. -/
structure Entry where
  ts : Option String
  msPlayed : Option Int
  artist : Option String
  trackName : Option String
  album : Option String
  skipped : Bool
  offline : Bool
deriving DecidableEq, Repr

/-- Python truthiness of an optional string field (`None` and `""` are falsy). -/
def truthy : Option String → Bool
  | none => false
  | some s => if s = "" then false else true

/-- Insertion-ordered set insert (models `set.add` observably: membership). -/
def insertSet {α : Type} [DecidableEq α] (s : List α) (x : α) : List α :=
  if x ∈ s then s else s ++ [x]

/-- Insertion-ordered counter increment by `v` (models `Counter`/`defaultdict(int)`
access: update in place if present, else append with default 0). -/
def bumpBy {α : Type} [DecidableEq α] : List (α × Int) → α → Int → List (α × Int)
  | [], k, v => [(k, v)]
  | (k', v') :: rest, k, v =>
    if k = k' then (k', v' + v) :: rest else (k', v') :: bumpBy rest k v

/-- Insertion-ordered association-list read with default (models `defaultdict`
lookup of the current value). -/
def assocGetD {α β : Type} [DecidableEq α] : List (α × β) → α → β → β
  | [], _, d => d
  | (k', v') :: rest, k, d => if k = k' then v' else assocGetD rest k d

/-- Insertion-ordered association-list write (update in place if present, else
append; models writing back a `defaultdict` slot). -/
def assocSet {α β : Type} [DecidableEq α] : List (α × β) → α → β → List (α × β)
  | [], k, v => [(k, v)]
  | (k', v') :: rest, k, v =>
    if k = k' then (k', v) :: rest else (k', v') :: assocSet rest k v

/-! ### Record validator (`validate_spotify_json`) -/

/-- A raw JSON value as far as the validator inspects it. -/
inductive RawVal where
  | vstr : String → RawVal
  | vint : Int → RawVal
  | vbool : Bool → RawVal
  | vnull : RawVal
deriving DecidableEq, Repr

/-- A raw record of a batch: either not a JSON object, or an object given by
its fields. -/
inductive RawEntry where
  | notDict : RawEntry
  | dict : List (String × RawVal) → RawEntry
deriving DecidableEq, Repr

/-- Field lookup in a raw object. -/
def rawGet : List (String × RawVal) → String → Option RawVal
  | [], _ => none
  | (k', v') :: rest, k => if k = k' then some v' else rawGet rest k

/-- One entry's structural validation, mirroring the per-entry checks of
`validate_spotify_json`: the entry is a dict, the required fields `ts` and
`ms_played` are present, `ts` is a string that parses (parseability is the
abstract predicate `pOk`), and `ms_played` is a non-negative number. -/
def entryValid (pOk : String → Bool) : RawEntry → Bool
  | .notDict => false
  | .dict fields =>
    match rawGet fields "ts", rawGet fields "ms_played" with
    | some tsv, some msv =>
      (match tsv with
       | .vstr s => pOk s
       | _ => false)
      &&
      (match msv with
       | .vint n => decide (0 ≤ n)
       | _ => false)
    | _, _ => false

/-- Embedding of `validate_spotify_json`: an empty batch is invalid, and
otherwise the batch is valid iff at least 70% of its entries pass the
structural checks.  The source computes `(valid/total)*100 >= 70.0` in floats;
this is modelled by the exact comparison `70 * total ≤ 100 * valid`. -/
def validate_spotify_json (pOk : String → Bool) (data : List RawEntry) : Bool :=
  if data = [] then false
  else decide (70 * data.length ≤ 100 * data.countP (entryValid pOk))

/-- A parse predicate accepting every timestamp string (used for synthetic
batches whose valid entries are well formed by construction). -/
def pOkAll : String → Bool := fun _ => true

/-- A synthetic structurally valid record. -/
def goodRaw : RawEntry :=
  .dict [("ts", .vstr "2020-01-01T00:00:00Z"), ("ms_played", .vint 1000)]

/-- A synthetic structurally invalid record (not a dict). -/
def badRaw : RawEntry := .notDict

/-- A synthetic batch with `v` valid records followed by `n - v` invalid ones. -/
def synthBatch (v n : Nat) : List RawEntry :=
  List.replicate v goodRaw ++ List.replicate (n - v) badRaw

/-! ### Eddington number (`calculate_milestone_stats`, milestone part) -/

/-- Insert into a descending-sorted list (`sorted(..., reverse=True)` model). -/
def insertDesc (x : Nat) : List Nat → List Nat
  | [] => [x]
  | y :: ys => if y ≤ x then x :: y :: ys else y :: insertDesc x ys

/-- Descending sort of the daily play counts (on `Nat` the sorted list is
unique, so any correct sort models Python's `sorted(..., reverse=True)`). -/
def sortDesc : List Nat → List Nat
  | [] => []
  | x :: xs => insertDesc x (sortDesc xs)

/-- The generator `next((i for i, n in enumerate(counts, start=1) if n < i), d)`:
the 1-based index of the first element smaller than its index, else `none`. -/
def firstRankBelow : List Nat → Nat → Option Nat
  | [], _ => none
  | n :: rest, i => if n < i then some i else firstRankBelow rest (i + 1)

/-- Embedding of the Eddington-number computation of
`calculate_milestone_stats`: sort the daily counts descending and take
`next((i for i, n in enumerate(counts, start=1) if n < i), len(counts))`,
with 0 for an empty collection. -/
def eddington_code (values : List Nat) : Nat :=
  let counts := sortDesc values
  if counts = [] then 0
  else (firstRankBelow counts 1).getD counts.length

/-- Number of days whose count is at least `e`. -/
def countGe (values : List Nat) (e : Nat) : Nat :=
  (values.filter (fun n => decide (e ≤ n))).length

/-- The specification's Eddington number: the largest `E` such that at least
`E` days each had at least `E` qualifying plays. -/
def eddington_spec (values : List Nat) : Nat :=
  ((List.range (values.length + 1)).filter
    (fun e => decide (e ≤ countGe values e))).foldr max 0

/-! ### Session segmentation (`calculate_session_stats`, session part)

Play timestamps are represented by their timeline positions in seconds
(`PDateTime.seconds`); the 30-minute `timedelta` gap is 1800 seconds. -/

/-- Insert into an ascending-sorted list. -/
def insertAsc (x : Int) : List Int → List Int
  | [] => [x]
  | y :: ys => if x ≤ y then x :: y :: ys else y :: insertAsc x ys

/-- Ascending sort (on `Int` the sorted list is unique, so any correct sort
models Python's `list.sort()`). -/
def pySort : List Int → List Int
  | [] => []
  | x :: xs => insertAsc x (pySort xs)

/-- The session loop of `calculate_session_stats`: starting a session at
`start` with previous play `prev`, close the session whenever the next play is
more than `gap` after the previous one, and emit `(start, prev)` pairs. -/
def sessionsLoop (gap : Int) : Int → Int → List Int → List (Int × Int)
  | start, prev, [] => [(start, prev)]
  | start, prev, t :: rest =>
    if gap < t - prev then (start, prev) :: sessionsLoop gap t t rest
    else sessionsLoop gap start t rest

/-- Embedding of the session computation of `calculate_session_stats`: sort the
play times and fold them into `(session start, session end)` pairs with cutoff
`gap` (1800 seconds = 30 minutes in the source). -/
def calc_sessions (gap : Int) (playTimes : List Int) : List (Int × Int) :=
  match pySort playTimes with
  | [] => []
  | t :: rest => sessionsLoop gap t t rest

/-- Specification-side grouping: the same traversal, but keeping every play of
the current run rather than only its endpoints. -/
def runsLoop (gap : Int) : List Int → Int → List Int → List (List Int)
  | cur, _, [] => [cur]
  | cur, prev, t :: rest =>
    if gap < t - prev then cur :: runsLoop gap [t] t rest
    else runsLoop gap (cur ++ [t]) t rest

/-- Specification-side sessions: the partition of a (sorted) play list into
maximal runs with consecutive gaps at most `gap`. -/
def session_runs (gap : Int) (sorted : List Int) : List (List Int) :=
  match sorted with
  | [] => []
  | t :: rest => runsLoop gap [t] t rest

/-- The last element of a list, with a default. -/
def lastD (d : Int) : List Int → Int
  | [] => d
  | [x] => x
  | _ :: y :: t => lastD d (y :: t)

/-! ### Event aggregation (`process_entry`, `process_spotify_data`) -/

/-- One yearly bucket: the six per-name maps of `yearly[year]`. -/
structure YearData where
  artistCounts : List (String × Int)
  artistTime : List (String × Int)
  trackCounts : List (String × Int)
  trackTime : List (String × Int)
  albumCounts : List (String × Int)
  albumTime : List (String × Int)
deriving DecidableEq, Repr

/-- The lazily created default yearly bucket of the `yearly` defaultdict. -/
def emptyYearData : YearData := ⟨[], [], [], [], [], []⟩

/-- The nineteen accumulators threaded through `process_entry`. -/
structure AggState where
  yearly : List (Int × YearData)
  datesSet : List (Int × Int × Int)
  firstTs : Option PDateTime
  firstEntry : Option Entry
  lastTs : Option PDateTime
  lastEntry : Option Entry
  artistSet : List String
  albumSet : List String
  trackSet : List String
  artistTracks : List (String × List String)
  dailyCounts : List ((Int × Int × Int) × Int)
  monthlyCounts : List ((Int × Int) × Int)
  weekdayCounts : List (Int × Int)
  hourCounts : List (Int × Int)
  playTimes : List PDateTime
  playCounted : Int
  skipCount : Int
  offlineCount : Int
  trackSkipCounts : List (String × Int)
deriving DecidableEq, Repr

/-- The all-empty initial accumulators of `process_spotify_data`. -/
def initAggState : AggState :=
  ⟨[], [], none, none, none, none, [], [], [], [], [], [], [], [], [], 0, 0, 0, []⟩

/-- Embedding of `process_entry`: fold one entry into the accumulators.
An entry with missing/zero/negative `ms_played`, a missing `ts`, or falsy
artist metadata leaves the state unchanged; otherwise the timestamp is parsed
(substituting `env.now` on parse failure), the stats/sets/first-last pointers
are updated, the threshold-gated counters are bumped when `ms_played` exceeds
`minMs`, skips are tallied independently of the threshold, and the yearly
bucket of the resolved year receives counts (threshold-gated) and cumulative
times (always). -/
def process_entry (env : Env) (minMs : Int) (st : AggState) (e : Entry) : AggState :=
  match e.msPlayed with
  | none => st
  | some ms =>
    if ms ≤ 0 then st
    else
      match e.ts with
      | none => st
      | some s =>
        if truthy e.artist then
          let artist := e.artist.getD "Unknown Artist"
          let trackName := e.trackName.getD "Unknown Track"
          let albumName := e.album.getD "Unknown Album"
          let track := trackName ++ " - " ++ artist
          let album := albumName ++ " - " ++ artist
          let dt := (env.parse s).getD env.now
          let y0 := assocGetD st.yearly dt.year emptyYearData
          let y1 :=
            if minMs < ms then
              { y0 with
                artistCounts := bumpBy y0.artistCounts artist 1
                trackCounts := bumpBy y0.trackCounts track 1
                albumCounts := bumpBy y0.albumCounts album 1 }
            else y0
          let y2 :=
            { y1 with
              artistTime := bumpBy y1.artistTime artist ms
              trackTime := bumpBy y1.trackTime track ms
              albumTime := bumpBy y1.albumTime album ms }
          { yearly := assocSet st.yearly dt.year y2
            datesSet := insertSet st.datesSet dt.date
            firstTs :=
              match st.firstTs with
              | none => some dt
              | some f => if dt.seconds < f.seconds then some dt else some f
            firstEntry :=
              match st.firstTs with
              | none => some e
              | some f => if dt.seconds < f.seconds then some e else st.firstEntry
            lastTs :=
              match st.lastTs with
              | none => some dt
              | some l => if l.seconds < dt.seconds then some dt else some l
            lastEntry :=
              match st.lastTs with
              | none => some e
              | some l => if l.seconds < dt.seconds then some e else st.lastEntry
            artistSet := insertSet st.artistSet artist
            albumSet := insertSet st.albumSet album
            trackSet := insertSet st.trackSet track
            artistTracks :=
              assocSet st.artistTracks artist
                (insertSet (assocGetD st.artistTracks artist []) track)
            dailyCounts :=
              if minMs < ms then bumpBy st.dailyCounts dt.date 1 else st.dailyCounts
            monthlyCounts :=
              if minMs < ms then bumpBy st.monthlyCounts (dt.year, dt.month) 1
              else st.monthlyCounts
            weekdayCounts :=
              if minMs < ms then bumpBy st.weekdayCounts dt.weekday 1 else st.weekdayCounts
            hourCounts :=
              if minMs < ms then bumpBy st.hourCounts dt.hour 1 else st.hourCounts
            playTimes := if minMs < ms then st.playTimes ++ [dt] else st.playTimes
            playCounted := if minMs < ms then st.playCounted + 1 else st.playCounted
            skipCount := if e.skipped then st.skipCount + 1 else st.skipCount
            offlineCount :=
              if minMs < ms then
                if e.offline then st.offlineCount + 1 else st.offlineCount
              else st.offlineCount
            trackSkipCounts :=
              if e.skipped then bumpBy st.trackSkipCounts track 1 else st.trackSkipCounts }
        else st

/-- One step of the main loop of `process_spotify_data`: the optional
minimum-year filter (skipping the entry when its timestamp parses to a year
below the filter; parse/lookup failures fall through to `process_entry`),
followed by `process_entry`. -/
def aggStep (env : Env) (minMs : Int) (minYear : Option Int) (st : AggState)
    (e : Entry) : AggState :=
  match minYear with
  | none => process_entry env minMs st e
  | some my =>
    match e.ts with
    | none => process_entry env minMs st e
    | some s =>
      match env.parse s with
      | none => process_entry env minMs st e
      | some dt => if dt.year < my then st else process_entry env minMs st e

/-- The main aggregation loop of `process_spotify_data`. -/
def aggregate_entries (env : Env) (entries : List Entry) (minMs : Int)
    (minYear : Option Int) : AggState :=
  entries.foldl (aggStep env minMs minYear) initAggState

/-- The `date_to_tracks` index: month-day to a counter over (track, exact date). -/
def OtdMap : Type :=
  List ((Int × Int) × List ((String × (Int × Int × Int)) × Int))

/-- One step of the "on this day" loop of `process_spotify_data`.  Entries at
or below the duration threshold are ignored; otherwise the timestamp is parsed
with NO error handling in the source, so a missing `ts` key raises `KeyError`
and an unparseable timestamp raises `ValueError`, modelled as `Except.error`. -/
def otdStep (env : Env) (minMs : Int) (minYear : Option Int) (m : OtdMap)
    (e : Entry) : Except String OtdMap :=
  if minMs < e.msPlayed.getD 0 then
    match e.ts with
    | none => .error "KeyError: ts"
    | some s =>
      match env.parse s with
      | none => .error "ValueError: invalid isoformat string"
      | some dt =>
        if (match minYear with | some my => decide (dt.year < my) | none => false) then
          .ok m
        else
          let track := e.trackName.getD "Unknown Track" ++ " — " ++ e.artist.getD "Unknown Artist"
          .ok (assocSet m (dt.month, dt.day)
            (bumpBy (assocGetD m (dt.month, dt.day) []) (track, dt.date) 1))
  else .ok m

/-- The "on this day" loop: fold `otdStep` over the entries, propagating the
first raised exception. -/
def otdLoop (env : Env) (minMs : Int) (minYear : Option Int) :
    List Entry → OtdMap → Except String OtdMap
  | [], m => .ok m
  | e :: es, m =>
    match otdStep env minMs minYear m e with
    | .ok m' => otdLoop env minMs minYear es m'
    | .error err => .error err

/-- Finalisation of the "on this day" index: keep, per month-day, only the
(track, date, count) entries with count above 2. -/
def finalizeOtd (m : OtdMap) :
    List ((Int × Int) × List (String × (Int × Int × Int) × Int)) :=
  m.map (fun p =>
    (p.1, p.2.filterMap (fun q => if 2 < q.2 then some (q.1.1, q.1.2, q.2) else none)))

/-- Embedding of `process_spotify_data`: run the main aggregation loop, then
the "on this day" loop (whose unguarded timestamp parse can abort the whole
call, modelled as `Except.error`), and return the accumulators together with
the finalised index. -/
def process_spotify_data (env : Env) (entries : List Entry) (minMs : Int)
    (minYear : Option Int) :
    Except String (AggState × List ((Int × Int) × List (String × (Int × Int × Int) × Int))) :=
  let st := aggregate_entries env entries minMs minYear
  match otdLoop env minMs minYear entries [] with
  | .ok m => .ok (st, finalizeOtd m)
  | .error err => .error err

/-! ### Deduplication (`process_entry_for_deduplication`, `check_for_duplicates`) -/

/-- The deduplication key of `process_entry_for_deduplication`: the f-string
`f"{ts}|{track}|{artist}|{ms_played}"` over the four fields with their `get`
defaults. -/
def entry_key (e : Entry) : String :=
  (e.ts.getD "") ++ "|" ++ (e.trackName.getD "Unknown Track") ++ "|" ++
    (e.artist.getD "Unknown Artist") ++ "|" ++ toString (e.msPlayed.getD 0)

/-- Key membership in the insertion-ordered `unique_entries` dict. -/
def hasKey : List (String × Entry) → String → Bool
  | [], _ => false
  | (k', _) :: rest, k => if k = k' then true else hasKey rest k

/-- Embedding of `process_entry_for_deduplication`: report whether the entry's
key was already seen and record the entry under its key if it was not. -/
def process_entry_for_deduplication (e : Entry) (u : List (String × Entry)) :
    List (String × Entry) × Bool :=
  let k := entry_key e
  if hasKey u k then (u, true) else (u ++ [(k, e)], false)

/-- The loop of `check_for_duplicates`: thread the `unique_entries` dict and
the duplicate tally over the entries. -/
def dedupLoop : List Entry → List (String × Entry) → Nat → List (String × Entry) × Nat
  | [], u, d => (u, d)
  | e :: es, u, d =>
    match process_entry_for_deduplication e u with
    | (u', true) => dedupLoop es u' (d + 1)
    | (u', false) => dedupLoop es u' d

/-- Embedding of `check_for_duplicates`: the values of the `unique_entries`
dict, in insertion order (`list(unique_entries.values())`). -/
def check_for_duplicates (entries : List Entry) : List Entry :=
  if entries = [] then []
  else ((dedupLoop entries [] 0).1).map Prod.snd

/-- The number of duplicates the loop of `check_for_duplicates` detects. -/
def duplicates_found (entries : List Entry) : Nat :=
  if entries = [] then 0 else (dedupLoop entries [] 0).2

/-- Specification-side dedup over the string key: keep each entry whose key
was not seen on an earlier entry. -/
def keep_first_by_key (l : List Entry) : List Entry :=
  l.foldl
    (fun acc e =>
      if acc.any (fun e0 => decide (entry_key e0 = entry_key e)) then acc
      else acc ++ [e]) []

/-- The identity tuple named by the claim: (timestamp, track name, artist
name, milliseconds played). -/
def entry_identity (e : Entry) : Option String × Option String × Option String × Option Int :=
  (e.ts, e.trackName, e.artist, e.msPlayed)

/-- Specification-side dedup over the identity tuple: keep each entry whose
tuple was not seen on an earlier entry. -/
def keep_first_by_identity (l : List Entry) : List Entry :=
  l.foldl
    (fun acc e =>
      if acc.any (fun e0 => decide (entry_identity e0 = entry_identity e)) then acc
      else acc ++ [e]) []

/-- First colliding-key witness: its `ts` contains the `"|"` delimiter. -/
def dupA : Entry :=
  ⟨some "T|x", some 1, some "A", some "y", none, false, false⟩

/-- Second colliding-key witness: a different identity tuple whose joined key
equals `dupA`'s. -/
def dupB : Entry :=
  ⟨some "T", some 1, some "A", some "x|y", none, false, false⟩

/-! ### Consistency repair (`fix_entry_consistency`)

The `inconsistencies` counter only feeds logging, so the fixes are modelled as
record transformers. -/

/-- Fix 1: cap `ms_played` at 24 hours. -/
def fixCap (e : Entry) : Entry :=
  if 24 * 60 * 60 * 1000 < e.msPlayed.getD 0 then
    { e with msPlayed := some (24 * 60 * 60 * 1000) }
  else e

/-- Fix 2: rewrite a future timestamp to `now` (via `isoformat`); a missing or
unparseable timestamp is left alone. -/
def fixFuture (env : Env) (e : Entry) : Entry :=
  match e.ts with
  | none => e
  | some s =>
    match env.parse s with
    | none => e
    | some t =>
      if env.now.seconds < t.seconds then { e with ts := some (env.iso env.now) } else e

/-- Fix 3: fill a missing artist when a track or album is present. -/
def fixArtist (e : Entry) : Entry :=
  if !truthy e.artist && (truthy e.trackName || truthy e.album) then
    { e with artist := some "Unknown Artist" }
  else e

/-- Fix 4: fill a missing track when an artist is present. -/
def fixTrack (e : Entry) : Entry :=
  if !truthy e.trackName && truthy e.artist then
    { e with trackName := some "Unknown Track" }
  else e

/-- Fix 5: fill a missing album when an artist is present. -/
def fixAlbum (e : Entry) : Entry :=
  if !truthy e.album && truthy e.artist then
    { e with album := some "Unknown Album" }
  else e

/-- Apply a list of fixes left to right. -/
def applyFixes (l : List (Entry → Entry)) (e : Entry) : Entry :=
  l.foldl (fun a f => f a) e

/-- The five fixes in the order `fix_entry_consistency` applies them. -/
def fixList (env : Env) : List (Entry → Entry) :=
  [fixCap, fixFuture env, fixArtist, fixTrack, fixAlbum]

/-- Embedding of `fix_entry_consistency`: the five fixes in source order. -/
def fix_entry_consistency (env : Env) (e : Entry) : Entry :=
  fixAlbum (fixTrack (fixArtist (fixFuture env (fixCap e))))

/-- The record on which the metadata fills are order-sensitive: album present,
artist and track both missing. -/
def orderSensitiveEntry : Entry :=
  ⟨none, some 1000, none, none, some "X", false, false⟩

/-- A concrete environment for closed evaluations: nothing parses and `now`
is the origin. -/
def envNoParse : Env :=
  ⟨fun _ => none, ⟨2024, 1, 1, 0, 0, 0⟩, fun _ => "2024-01-01T00:00:00"⟩

/-! ### Personality percentages (`calculate_personality_type`) -/

/-- The statistics fields `calculate_personality_type` extracts (via
`stats.get`, so every field is a number; float arithmetic is modelled by
exact rationals). -/
structure Stats where
  uniqueRatioPct : ℚ
  gini : ℚ
  skipRatePct : ℚ
  ratioPct : ℚ
  artistsCount : ℚ
  pctOneHits : ℚ
  avgPlayMs : ℚ
  totalPlays : ℚ
  daysPlayed : ℚ
  daysSinceFirst : ℚ
  maxStreak : ℚ
  tracksCount : ℚ
  albumsCount : ℚ

/-- The helper `get_threshold_score`: band a value into scores 0–3 against an
ordered threshold triple, optionally direction-reversed. -/
def get_threshold_score (value : ℚ) (t : ℚ × ℚ × ℚ) (reverse : Bool) : ℚ :=
  if reverse then
    if value ≤ t.1 then 3
    else if value ≤ t.2.1 then 2
    else if value ≤ t.2.2 then 1
    else 0
  else
    if t.2.2 ≤ value then 3
    else if t.2.1 ≤ value then 2
    else if t.1 ≤ value then 1
    else 0

/-- Embedding of the twelve category scores of `calculate_personality_type`,
with the source's threshold triples, weights and bonus conditions. -/
def personality_scores (s : Stats) : List (String × ℚ) :=
  let unique_ratio := s.uniqueRatioPct
  let gini := s.gini
  let skip_rate := s.skipRatePct
  let weekend_ratio := s.ratioPct
  let artists_count := s.artistsCount
  let one_hits_pct := s.pctOneHits
  let avg_play_ms := s.avgPlayMs
  let total_plays := s.totalPlays
  let days_played := s.daysPlayed
  let days_since_first := s.daysSinceFirst
  let max_streak := s.maxStreak
  let tracks_count := s.tracksCount
  let albums_count := s.albumsCount
  let listening_frequency := days_played / max 1 days_since_first
  let artist_to_track_ratio := artists_count / max 1 tracks_count
  let album_to_artist_ratio := albums_count / max 1 artists_count
  let avg_play_minutes := avg_play_ms / 60000
  let ut : ℚ × ℚ × ℚ := (30, 50, 70)
  let gt : ℚ × ℚ × ℚ := (3/10, 1/2, 7/10)
  let srt : ℚ × ℚ × ℚ := (15, 30, 45)
  let wrt : ℚ × ℚ × ℚ := (30, 50, 70)
  let act : ℚ × ℚ × ℚ := (50, 100, 200)
  let oht : ℚ × ℚ × ℚ := (20, 40, 60)
  let lft : ℚ × ℚ × ℚ := (3/10, 3/5, 9/10)
  let apmt : ℚ × ℚ × ℚ := (2, 3, 4)
  let strt : ℚ × ℚ × ℚ := (5, 14, 30)
  [("Explorer",
      get_threshold_score unique_ratio ut false * (17/10) +
      get_threshold_score gini gt true * (17/10) +
      get_threshold_score artists_count act false * (3/2) +
      get_threshold_score one_hits_pct oht false * (6/5) +
      (if artist_to_track_ratio < 3/10 then 1 else 0) +
      (if 60 < unique_ratio then 3/2 else 0)),
   ("Loyalist",
      get_threshold_score unique_ratio ut true * (6/5) +
      get_threshold_score gini gt false * (3/2) +
      get_threshold_score artists_count act true * 1 +
      (if 3/2 < album_to_artist_ratio then 1 else 0)),
   ("Eclectic",
      get_threshold_score one_hits_pct oht false * (3/2) +
      get_threshold_score artists_count act false * (6/5) +
      get_threshold_score unique_ratio ut false * 1 +
      (if 7/10 < artist_to_track_ratio then 1 else 0)),
   ("Focused",
      get_threshold_score one_hits_pct oht true * (3/2) +
      get_threshold_score gini gt false * (6/5) +
      get_threshold_score unique_ratio ut true * 1 +
      (if tracks_count < 200 then 1 else 0)),
   ("Weekend Warrior",
      get_threshold_score weekend_ratio wrt false * (5/2) +
      get_threshold_score listening_frequency lft true * (3/2) +
      (if max_streak < 5 then 3/2 else 0) +
      (if 65 < weekend_ratio then 2 else 0) +
      (if days_played < days_since_first * (2/5) then 3/2 else 0)),
   ("Daily Listener",
      get_threshold_score listening_frequency lft false * (3/2) +
      get_threshold_score weekend_ratio wrt true * (4/5) +
      get_threshold_score max_streak strt false * (7/10) +
      (if 8 < total_plays / max 1 days_played then 1 else 0)),
   ("Skipper",
      get_threshold_score skip_rate srt false * 2 +
      get_threshold_score avg_play_minutes apmt true * (3/2) +
      get_threshold_score unique_ratio ut false * (4/5) +
      (if 1000 < total_plays then 1 else 0)),
   ("Completionist",
      get_threshold_score skip_rate srt true * 2 +
      get_threshold_score avg_play_minutes apmt false * (5/2) +
      (if 6/5 < album_to_artist_ratio then 3/2 else 0) +
      (if gini < 2/5 then 3/2 else 0) +
      (if skip_rate < 10 then 2 else 0) +
      (if 9/2 < avg_play_minutes then 3/2 else 0)),
   ("Binge Listener",
      (if 10 < max_streak then 2 else 0) +
      get_threshold_score total_plays (500, 1000, 2000) false * (3/2) +
      (if 3/5 < gini then 7/5 else 0) +
      (if 10 < total_plays / max 1 days_played then 6/5 else 0)),
   ("Variety Seeker",
      get_threshold_score artists_count act false * (3/2) +
      get_threshold_score one_hits_pct oht false * (3/2) +
      (if 1/2 < artist_to_track_ratio then 17/10 else 0) +
      (if gini < 2/5 then 3/2 else 0)),
   ("Mood Listener",
      get_threshold_score skip_rate srt false * (8/5) +
      (if 40 < weekend_ratio ∧ weekend_ratio < 60 then 2 else 0) +
      get_threshold_score unique_ratio ut false * (13/10) +
      (if 3/10 < listening_frequency ∧ listening_frequency < 7/10 then 2 else 0)),
   ("Deep Diver",
      get_threshold_score avg_play_minutes apmt false * (9/5) +
      (if 2 < album_to_artist_ratio then 5/2 else 0) +
      get_threshold_score skip_rate srt true * (7/5) +
      (if artists_count < 50 ∧ 200 < tracks_count then 2 else 0) +
      (if 1/2 < gini ∧ gini < 7/10 then 3/2 else 0))]

/-- Embedding of the percentage computation of `calculate_personality_type`:
each percentage is `score / total * 100`, with an even `100 / 12` split when
the total score is not positive. -/
def personality_percentages (s : Stats) : List (String × ℚ) :=
  let scores := personality_scores s
  let total := (scores.map Prod.snd).sum
  if 0 < total then scores.map (fun p => (p.1, p.2 / total * 100))
  else scores.map (fun p => (p.1, 100 / (scores.length : ℚ)))

/-! ### Concrete records and environments used in closed statements -/

/-- A record whose timestamp string fails to parse while its play duration
exceeds the 20000 ms threshold. -/
def badTsEntry : Entry :=
  ⟨some "totally-not-a-timestamp", some 30000, some "A", some "T", none, false, false⟩

/-- An environment whose parse function recognises one fixed timestamp string
per year 2019–2022. -/
def envYears : Env :=
  ⟨fun s =>
    if s = "2019-06-01T12:00:00Z" then some ⟨2019, 6, 1, 12, 5, 100⟩
    else if s = "2020-06-01T12:00:00Z" then some ⟨2020, 6, 1, 12, 0, 200⟩
    else if s = "2021-06-01T12:00:00Z" then some ⟨2021, 6, 1, 12, 2, 300⟩
    else if s = "2022-06-01T12:00:00Z" then some ⟨2022, 6, 1, 12, 3, 400⟩
    else none,
   ⟨2024, 1, 1, 0, 1, 1000⟩,
   fun _ => "2024-01-01T00:00:00"⟩

/-- A 2019-dated record with artist present and duration above threshold. -/
def entry2019 : Entry :=
  ⟨some "2019-06-01T12:00:00Z", some 30000, some "A", some "T", some "L", false, false⟩

/-- A 2020-dated record with artist present and duration above threshold. -/
def entry2020 : Entry :=
  ⟨some "2020-06-01T12:00:00Z", some 30000, some "A", some "T", some "L", false, false⟩

/-- A 2021-dated record with artist present and duration above threshold. -/
def entry2021 : Entry :=
  ⟨some "2021-06-01T12:00:00Z", some 30000, some "A", some "T", some "L", false, false⟩

/-- A 2022-dated record with artist present and duration above threshold. -/
def entry2022 : Entry :=
  ⟨some "2022-06-01T12:00:00Z", some 30000, some "A", some "T", some "L", false, false⟩

/-- A skipped record whose duration (5000 ms) is positive but below the
20000 ms threshold. -/
def skippedShortPlay : Entry :=
  ⟨some "2021-06-01T12:00:00Z", some 5000, some "A", some "T", some "L", true, false⟩

/-- A record with zero play duration but a skipped flag set. -/
def zeroMsSkipped : Entry :=
  ⟨some "2021-06-01T12:00:00Z", some 0, some "A", some "T", some "L", true, true⟩

/-- The action of `fixCap` on the one field it writes. -/
def capMs (ms : Option Int) : Option Int :=
  if 24 * 60 * 60 * 1000 < ms.getD 0 then some (24 * 60 * 60 * 1000) else ms

/-- The action of `fixFuture` on the one field it writes. -/
def futureTs (env : Env) : Option String → Option String
  | none => none
  | some s =>
    match env.parse s with
    | none => some s
    | some t =>
      if env.now.seconds < t.seconds then some (env.iso env.now) else some s

/-- The action of `fixArtist` on the one field it writes. -/
def fillArtist (ar tr al : Option String) : Option String :=
  if !truthy ar && (truthy tr || truthy al) then some "Unknown Artist" else ar

/-- The action of `fixTrack` on the one field it writes. -/
def fillTrack (tr ar : Option String) : Option String :=
  if !truthy tr && truthy ar then some "Unknown Track" else tr

/-- The action of `fixAlbum` on the one field it writes. -/
def fillAlbum (al ar : Option String) : Option String :=
  if !truthy al && truthy ar then some "Unknown Album" else al

/-- An all-zero statistics record (with the source's default 1 for
days-since-first). -/
def statsZero : Stats :=
  ⟨0, 0, 0, 0, 0, 0, 0, 0, 0, 1, 0, 0, 0⟩

/-! ## Theorems -/

/-- C1: the Eddington computation of `calculate_milestone_stats` is off by one
whenever some rank exceeds its count: on daily counts `[1,1,1]` the code
returns the first rank `i` with `counts[i-1] < i`, which is 2, while the
largest `E` with at least `E` days of at least `E` plays is 1 (only the
all-ranks-pass vectors `[5,5,5,5,5]` and `[]` agree with the specification). -/
theorem eddington_off_by_one :
    eddington_code [1, 1, 1] = 2 ∧ eddington_spec [1, 1, 1] = 1 ∧
    eddington_code [5, 5, 5, 5, 5] = 5 ∧ eddington_spec [5, 5, 5, 5, 5] = 5 ∧
    eddington_code [] = 0 ∧ eddington_spec [] = 0 ∧
    ¬ 2 ≤ countGe [1, 1, 1] 2 := by decide

/-- C2: a record whose timestamp fails to parse is aggregated by
`process_entry` under the substituted current processing time (its date lands
in the distinct-dates set and it is counted as a play), but the second,
unguarded timestamp parse of the "on this day" pass of `process_spotify_data`
raises for the same record, so the call does not return normally. -/
theorem bad_timestamp_aborts_run :
    (aggregate_entries envNoParse [badTsEntry] 20000 none).datesSet
        = [envNoParse.now.date] ∧
    (aggregate_entries envNoParse [badTsEntry] 20000 none).playCounted = 1 ∧
    process_spotify_data envNoParse [badTsEntry] 20000 none
        = .error "ValueError: invalid isoformat string" := by
  refine ⟨rfl, rfl, rfl⟩

/-- C10: an entry whose play duration is missing, zero or negative, or whose
timestamp field is missing, is returned by `process_entry` with every one of
the nineteen accumulators unchanged, whatever its other fields hold. -/
theorem inert_entry_unchanged (env : Env) (minMs : Int) (st : AggState) (e : Entry)
    (h : e.msPlayed = none ∨ (∃ m, e.msPlayed = some m ∧ m ≤ 0) ∨ e.ts = none) :
    process_entry env minMs st e = st := by
  rcases h with h | ⟨m, hm, hm0⟩ | h
  · simp [process_entry, h]
  · simp [process_entry, hm, hm0]
  · rcases he : e.msPlayed with _ | m
    · simp [process_entry, he]
    · by_cases hm0 : m ≤ 0 <;> simp [process_entry, he, h, hm0]

/-- C10 witness: a zero-duration record with the skipped and offline flags set
leaves the initial accumulators untouched. -/
theorem inert_entry_unchanged_witness :
    process_entry envNoParse 20000 initAggState zeroMsSkipped = initAggState :=
  inert_entry_unchanged envNoParse 20000 initAggState zeroMsSkipped
    (Or.inr (Or.inl ⟨0, rfl, le_refl 0⟩))

/-- C3: for an aggregated entry (positive play duration, timestamp field
present, artist metadata present) whose skipped flag is set, `process_entry`
increments the global skip tally and the entry's per-track skip counter,
for every duration threshold (in particular when the duration is at or below
it). -/
theorem skip_counted_independent_of_threshold (env : Env) (minMs : Int)
    (st : AggState) (e : Entry) (m : Int) (s a : String)
    (hm : e.msPlayed = some m) (hm0 : 0 < m) (hts : e.ts = some s)
    (ha : e.artist = some a) (ha0 : a ≠ "") (hsk : e.skipped = true) :
    (process_entry env minMs st e).skipCount = st.skipCount + 1 ∧
    (process_entry env minMs st e).trackSkipCounts
      = bumpBy st.trackSkipCounts ((e.trackName.getD "Unknown Track") ++ " - " ++ a) 1 := by
  have hm0' : ¬ m ≤ 0 := not_le.mpr hm0
  constructor <;> simp [process_entry, hm, hm0', hts, ha, ha0, truthy, hsk]

/-- C3 witness: a skipped record playing 5000 ms against a 20000 ms threshold
still bumps both skip counters. -/
theorem skip_counted_independent_of_threshold_witness :
    (process_entry envYears 20000 initAggState skippedShortPlay).skipCount = 0 + 1 ∧
    (process_entry envYears 20000 initAggState skippedShortPlay).trackSkipCounts
      = bumpBy ([] : List (String × Int)) ("T" ++ " - " ++ "A") 1 :=
  skip_counted_independent_of_threshold envYears 20000 initAggState skippedShortPlay
    5000 "2021-06-01T12:00:00Z" "A" rfl (by decide) rfl rfl (by decide) rfl

/-- An entry whose parsed year is below the filter is skipped by the main-loop
step of `process_spotify_data`. -/
theorem aggStep_skip (env : Env) (minMs my : Int) (st : AggState) (e : Entry)
    (s : String) (dt : PDateTime) (hts : e.ts = some s)
    (hp : env.parse s = some dt) (hy : dt.year < my) :
    aggStep env minMs (some my) st e = st := by
  simp [aggStep, hts, hp, hy]

/-- Folding over a list with one element that every state ignores equals
folding over the list without it. -/
theorem foldl_skip_mid {α β : Type} (f : α → β → α) (e : β)
    (h : ∀ a, f a e = a) (xs ys : List β) (i : α) :
    List.foldl f i (xs ++ e :: ys) = List.foldl f i (xs ++ ys) := by
  simp [List.foldl_append, List.foldl_cons, h]

/-- An entry whose parsed year is below the filter is skipped (without
raising) by the "on this day" step. -/
theorem otdStep_skip (env : Env) (minMs my : Int) (m : OtdMap) (e : Entry)
    (s : String) (dt : PDateTime) (hts : e.ts = some s)
    (hp : env.parse s = some dt) (hy : dt.year < my) :
    otdStep env minMs (some my) m e = .ok m := by
  by_cases hms : minMs < e.msPlayed.getD 0 <;> simp [otdStep, hms, hts, hp, hy]

/-- Removing an entry that every "on this day" state ignores does not change
the result of the loop. -/
theorem otdLoop_skip_mid (env : Env) (minMs : Int) (minYear : Option Int)
    (e : Entry) (h : ∀ m, otdStep env minMs minYear m e = .ok m) :
    ∀ (xs ys : List Entry) (m : OtdMap),
      otdLoop env minMs minYear (xs ++ e :: ys) m = otdLoop env minMs minYear (xs ++ ys) m := by
  intro xs
  induction xs with
  | nil => intro ys m; simp [otdLoop, h]
  | cons x xs ih =>
    intro ys m
    simp only [List.cons_append, otdLoop]
    cases otdStep env minMs minYear m x <;> simp [ih]

/-- C7: a record whose timestamp parses to a year below the configured
minimum-year filter contributes nothing to any output of
`process_spotify_data` — removing it changes neither the accumulators (dates,
first/last, skips, yearly buckets) nor the "on this day" index; and in the
concrete scenario with filter 2021 and records dated 2019–2022, the yearly
buckets contain exactly the years 2021 and 2022 and the whole result equals
that of processing the 2021 and 2022 records alone. -/
theorem year_filter_excludes_entry :
    (∀ (env : Env) (minMs my : Int) (xs ys : List Entry) (e : Entry) (s : String)
        (dt : PDateTime), e.ts = some s → env.parse s = some dt → dt.year < my →
        process_spotify_data env (xs ++ e :: ys) minMs (some my)
          = process_spotify_data env (xs ++ ys) minMs (some my)) ∧
    (aggregate_entries envYears [entry2019, entry2020, entry2021, entry2022] 20000
        (some 2021)).yearly.map Prod.fst = [2021, 2022] ∧
    process_spotify_data envYears [entry2019, entry2020, entry2021, entry2022]
        20000 (some 2021)
      = process_spotify_data envYears [entry2021, entry2022] 20000 (some 2021) := by
  refine ⟨?_, by decide, rfl⟩
  intro env minMs my xs ys e s dt hts hp hy
  have hagg : aggregate_entries env (xs ++ e :: ys) minMs (some my)
      = aggregate_entries env (xs ++ ys) minMs (some my) :=
    foldl_skip_mid _ e (fun st => aggStep_skip env minMs my st e s dt hts hp hy) xs ys _
  have hotd : otdLoop env minMs (some my) (xs ++ e :: ys) []
      = otdLoop env minMs (some my) (xs ++ ys) [] :=
    otdLoop_skip_mid env minMs (some my) e
      (fun m => otdStep_skip env minMs my m e s dt hts hp hy) xs ys []
  simp only [process_spotify_data, hagg, hotd]

/-- C7 witness: dropping the 2019 record from a batch filtered at year 2021
leaves the result unchanged. -/
theorem year_filter_excludes_entry_witness :
    process_spotify_data envYears [entry2019, entry2021] 20000 (some 2021)
      = process_spotify_data envYears [entry2021] 20000 (some 2021) :=
  year_filter_excludes_entry.1 envYears 20000 2021 [] [entry2021] entry2019
    "2019-06-01T12:00:00Z" ⟨2019, 6, 1, 12, 5, 100⟩ rfl rfl (by decide)

/-- Counting a predicate over a replicated list. -/
theorem countP_replicate {α : Type} (p : α → Bool) (n : Nat) (a : α) :
    (List.replicate n a).countP p = if p a then n else 0 := by
  induction n with
  | zero => simp
  | succ n ih => simp only [List.replicate_succ, List.countP_cons, ih]; split <;> simp

/-- C5: `validate_spotify_json` rejects an empty batch, and otherwise accepts
iff the entries passing structural validation make up at least 70% of the
batch; consequently a synthetic batch of `n` records with exactly `⌈0.7n⌉`
valid ones is accepted and with `⌈0.7n⌉ - 1` it is rejected (the float
percentage test of the source is modelled by exact arithmetic). -/
theorem validator_threshold :
    (∀ pOk, validate_spotify_json pOk [] = false) ∧
    (∀ (pOk : String → Bool) (data : List RawEntry),
        validate_spotify_json pOk data = true ↔
          data ≠ [] ∧ 70 * data.length ≤ 100 * data.countP (entryValid pOk)) ∧
    (∀ n v : Nat, 0 < n → v ≤ n →
        (validate_spotify_json pOkAll (synthBatch v n) = true ↔ (7 * n + 9) / 10 ≤ v)) := by
  refine ⟨fun pOk => rfl, ?_, ?_⟩
  · intro pOk data
    by_cases h : data = [] <;> simp [validate_spotify_json, h]
  · intro n v hn hv
    have hlen : (synthBatch v n).length = n := by
      simp [synthBatch]; omega
    have hcnt : (synthBatch v n).countP (entryValid pOkAll) = v := by
      simp [synthBatch, List.countP_append, countP_replicate]
      rfl
    have hne : ¬ synthBatch v n = [] := by
      intro h; rw [h] at hlen; simp at hlen; omega
    simp [validate_spotify_json, hne, hlen, hcnt]
    omega

/-- C5 witness: out of 10 synthetic records the validator accepts 7 valid ones
and rejects 6. -/
theorem validator_threshold_witness :
    validate_spotify_json pOkAll (synthBatch 7 10) = true ∧
    validate_spotify_json pOkAll (synthBatch 6 10) = false := by
  constructor
  · exact (validator_threshold.2.2 10 7 (by decide) (by decide)).mpr (by decide)
  · have h := validator_threshold.2.2 10 6 (by decide) (by decide)
    have hne : ¬ validate_spotify_json pOkAll (synthBatch 6 10) = true := by
      intro hx; exact absurd (h.mp hx) (by decide)
    simpa using hne

/-- Summing `x / t * 100` over a list factors through the list's sum. -/
theorem sum_map_div_mul_hundred (l : List ℚ) (t : ℚ) :
    (l.map (fun x => x / t * 100)).sum = l.sum / t * 100 := by
  induction l with
  | nil => simp
  | cons a l ih => simp [ih]; ring

/-- Summing a constant over a list. -/
theorem sum_map_constant {α : Type} (l : List α) (c : ℚ) :
    (l.map (fun _ => c)).sum = l.length * c := by
  induction l with
  | nil => simp
  | cons a l ih => simp [ih]; ring

/-- C9: the twelve personality-category percentages of
`calculate_personality_type` sum to exactly 100 (so certainly within ±0.01)
for every statistics input: each is `score / total × 100` when the total score
is positive, and the even `100 / 12` fallback split also sums to 100. -/
theorem personality_percentages_sum (s : Stats) :
    ((personality_percentages s).map Prod.snd).sum = 100 ∧
    (personality_percentages s).length = 12 := by
  have hlen : (personality_scores s).length = 12 := rfl
  unfold personality_percentages
  by_cases h : 0 < ((personality_scores s).map Prod.snd).sum
  · simp only [if_pos h]
    refine ⟨?_, by simpa using hlen⟩
    rw [List.map_map]
    have h2 : (personality_scores s).map
          ((fun p : String × ℚ => p.2) ∘ fun p : String × ℚ => (p.1, p.2 / ((personality_scores s).map Prod.snd).sum * 100))
        = ((personality_scores s).map Prod.snd).map
            (fun x => x / ((personality_scores s).map Prod.snd).sum * 100) := by
      rw [List.map_map]; rfl
    rw [show (Prod.snd ∘ fun p : String × ℚ =>
          (p.1, p.2 / ((personality_scores s).map Prod.snd).sum * 100))
        = ((fun p : String × ℚ => p.2) ∘ fun p : String × ℚ =>
          (p.1, p.2 / ((personality_scores s).map Prod.snd).sum * 100)) from rfl]
    rw [h2, sum_map_div_mul_hundred, div_self (ne_of_gt h)]
    norm_num
  · simp only [if_neg h]
    refine ⟨?_, by simpa using hlen⟩
    rw [List.map_map]
    have h2 : ((Prod.snd ∘ fun p : String × ℚ => (p.1, 100 / ((personality_scores s).length : ℚ))))
        = fun _ : String × ℚ => 100 / ((personality_scores s).length : ℚ) := rfl
    rw [h2, sum_map_constant, hlen]
    norm_num

/-- C9 witness: the percentages of an all-zero statistics record sum to 100. -/
theorem personality_percentages_sum_witness :
    ((personality_percentages statsZero).map Prod.snd).sum = 100 ∧
    (personality_percentages statsZero).length = 12 :=
  personality_percentages_sum statsZero

/-- The duration cap writes only `msPlayed`, reading only `msPlayed`. -/
theorem fixCap_eq (e : Entry) : fixCap e = { e with msPlayed := capMs e.msPlayed } := by
  by_cases h : (86400000 : Int) < e.msPlayed.getD 0 <;> simp [fixCap, capMs, h]

/-- The future-timestamp rewrite writes only `ts`, reading only `ts`. -/
theorem fixFuture_eq (env : Env) (e : Entry) :
    fixFuture env e = { e with ts := futureTs env e.ts } := by
  rcases e with ⟨ts, ms, ar, tr, al, sk, off⟩
  rcases ts with _ | s
  · rfl
  · rcases h : env.parse s with _ | t
    · simp [fixFuture, futureTs, h]
    · by_cases hf : env.now.seconds < t.seconds <;> simp [fixFuture, futureTs, h, hf]

/-- The artist fill writes only `artist`, reading artist/track/album. -/
theorem fixArtist_eq (e : Entry) :
    fixArtist e = { e with artist := fillArtist e.artist e.trackName e.album } := by
  by_cases h : (!truthy e.artist && (truthy e.trackName || truthy e.album)) = true <;>
    simp [fixArtist, fillArtist, h]

/-- The track fill writes only `trackName`, reading track/artist. -/
theorem fixTrack_eq (e : Entry) :
    fixTrack e = { e with trackName := fillTrack e.trackName e.artist } := by
  by_cases h : (!truthy e.trackName && truthy e.artist) = true <;>
    simp [fixTrack, fillTrack, h]

/-- The album fill writes only `album`, reading album/artist. -/
theorem fixAlbum_eq (e : Entry) :
    fixAlbum e = { e with album := fillAlbum e.album e.artist } := by
  by_cases h : (!truthy e.album && truthy e.artist) = true <;>
    simp [fixAlbum, fillAlbum, h]

/-- On a record whose artist is present, the artist fill does nothing. -/
theorem fixArtist_inert (e : Entry) (h : truthy e.artist = true) : fixArtist e = e := by
  simp [fixArtist, h]

/-- The duration cap commutes with the future-timestamp rewrite. -/
theorem comm_cap_future (env : Env) (e : Entry) :
    fixCap (fixFuture env e) = fixFuture env (fixCap e) := by
  simp only [fixCap_eq, fixFuture_eq]

/-- The duration cap commutes with the artist fill. -/
theorem comm_cap_artist (e : Entry) : fixCap (fixArtist e) = fixArtist (fixCap e) := by
  simp only [fixCap_eq, fixArtist_eq]

/-- The duration cap commutes with the track fill. -/
theorem comm_cap_track (e : Entry) : fixCap (fixTrack e) = fixTrack (fixCap e) := by
  simp only [fixCap_eq, fixTrack_eq]

/-- The duration cap commutes with the album fill. -/
theorem comm_cap_album (e : Entry) : fixCap (fixAlbum e) = fixAlbum (fixCap e) := by
  simp only [fixCap_eq, fixAlbum_eq]

/-- The future-timestamp rewrite commutes with the artist fill. -/
theorem comm_future_artist (env : Env) (e : Entry) :
    fixFuture env (fixArtist e) = fixArtist (fixFuture env e) := by
  simp only [fixFuture_eq, fixArtist_eq]

/-- The future-timestamp rewrite commutes with the track fill. -/
theorem comm_future_track (env : Env) (e : Entry) :
    fixFuture env (fixTrack e) = fixTrack (fixFuture env e) := by
  simp only [fixFuture_eq, fixTrack_eq]

/-- The future-timestamp rewrite commutes with the album fill. -/
theorem comm_future_album (env : Env) (e : Entry) :
    fixFuture env (fixAlbum e) = fixAlbum (fixFuture env e) := by
  simp only [fixFuture_eq, fixAlbum_eq]

/-- The track fill commutes with the album fill. -/
theorem comm_track_album (e : Entry) : fixTrack (fixAlbum e) = fixAlbum (fixTrack e) := by
  simp only [fixTrack_eq, fixAlbum_eq]

/-- On records whose artist is present, the artist fill commutes with the
track fill (it is inert on both sides). -/
theorem comm_artist_track (e : Entry) (h : truthy e.artist = true) :
    fixArtist (fixTrack e) = fixTrack (fixArtist e) := by
  have h2 : truthy (fixTrack e).artist = true := by rw [fixTrack_eq]; exact h
  rw [fixArtist_inert _ h2, fixArtist_inert _ h]

/-- On records whose artist is present, the artist fill commutes with the
album fill (it is inert on both sides). -/
theorem comm_artist_album (e : Entry) (h : truthy e.artist = true) :
    fixArtist (fixAlbum e) = fixAlbum (fixArtist e) := by
  have h2 : truthy (fixAlbum e).artist = true := by rw [fixAlbum_eq]; exact h
  rw [fixArtist_inert _ h2, fixArtist_inert _ h]

/-- Folding a list of functions over a state is invariant under permuting the
list, provided all pairs commute on states satisfying an invariant that every
function preserves. -/
theorem applyFixes_perm (P : Entry → Prop) {l₁ l₂ : List (Entry → Entry)}
    (hp : l₁.Perm l₂) :
    (∀ f ∈ l₂, ∀ g ∈ l₂, ∀ a, P a → f (g a) = g (f a)) →
    (∀ f ∈ l₂, ∀ a, P a → P (f a)) →
    ∀ a, P a → applyFixes l₁ a = applyFixes l₂ a := by
  induction hp with
  | nil => intro _ _ a _; rfl
  | cons x h ih =>
    intro hcomm hpres a ha
    simp only [applyFixes, List.foldl_cons]
    exact ih
      (fun f hf g hg b hb => hcomm f (List.mem_cons_of_mem _ hf) g (List.mem_cons_of_mem _ hg) b hb)
      (fun f hf b hb => hpres f (List.mem_cons_of_mem _ hf) b hb)
      (x a) (hpres x (List.mem_cons_self _ _) a ha)
  | swap x y l =>
    intro hcomm hpres a ha
    simp only [applyFixes, List.foldl_cons]
    rw [hcomm x (List.mem_cons_self _ _) y (List.mem_cons_of_mem _ (List.mem_cons_self _ _)) a ha]
  | trans h₁ h₂ ih₁ ih₂ =>
    intro hcomm hpres a ha
    calc applyFixes _ a
        = applyFixes _ a :=
          ih₁ (fun f hf g hg b hb => hcomm f (h₂.subset hf) g (h₂.subset hg) b hb)
            (fun f hf b hb => hpres f (h₂.subset hf) b hb) a ha
      _ = applyFixes _ a := ih₂ hcomm hpres a ha

/-- C4 (amended): for every record whose artist field is present, the five
consistency fixes may be applied in any order and yield the repaired record of
`fix_entry_consistency`; the cap and future-timestamp fixes check only their
own fields, and with the artist present the artist fill is inert, so all pairs
commute. -/
theorem fixes_commute_when_artist_present (env : Env) (l : List (Entry → Entry))
    (hp : l.Perm (fixList env)) (e : Entry) (he : truthy e.artist = true) :
    applyFixes l e = fix_entry_consistency env e := by
  have hcomm : ∀ f ∈ fixList env, ∀ g ∈ fixList env, ∀ a,
      (fun b : Entry => truthy b.artist = true) a → f (g a) = g (f a) := by
    intro f hf g hg a ha
    simp only [fixList, List.mem_cons, List.mem_singleton, List.not_mem_nil, or_false] at hf hg
    rcases hf with rfl | rfl | rfl | rfl | rfl <;> rcases hg with rfl | rfl | rfl | rfl | rfl <;>
      first
        | rfl
        | exact comm_cap_future env a
        | exact (comm_cap_future env a).symm
        | exact comm_cap_artist a
        | exact (comm_cap_artist a).symm
        | exact comm_cap_track a
        | exact (comm_cap_track a).symm
        | exact comm_cap_album a
        | exact (comm_cap_album a).symm
        | exact comm_future_artist env a
        | exact (comm_future_artist env a).symm
        | exact comm_future_track env a
        | exact (comm_future_track env a).symm
        | exact comm_future_album env a
        | exact (comm_future_album env a).symm
        | exact comm_track_album a
        | exact (comm_track_album a).symm
        | exact comm_artist_track a ha
        | exact (comm_artist_track a ha).symm
        | exact comm_artist_album a ha
        | exact (comm_artist_album a ha).symm
  have hpres : ∀ f ∈ fixList env, ∀ a,
      (fun b : Entry => truthy b.artist = true) a → truthy (f a).artist = true := by
    intro f hf a ha
    simp only [fixList, List.mem_cons, List.mem_singleton, List.not_mem_nil, or_false] at hf
    rcases hf with rfl | rfl | rfl | rfl | rfl
    · rw [fixCap_eq]; exact ha
    · rw [fixFuture_eq]; exact ha
    · rw [fixArtist_inert _ ha]; exact ha
    · rw [fixTrack_eq]; exact ha
    · rw [fixAlbum_eq]; exact ha
  have h1 := applyFixes_perm (fun b : Entry => truthy b.artist = true) hp hcomm hpres e he
  rw [h1]; rfl

/-- C4 witness: applying the five fixes in reverse order to a record with
artist present gives the repaired record of the implemented order. -/
theorem fixes_commute_when_artist_present_witness :
    applyFixes ((fixList envNoParse).reverse) entry2021
      = fix_entry_consistency envNoParse entry2021 :=
  fixes_commute_when_artist_present envNoParse ((fixList envNoParse).reverse)
    (List.reverse_perm _) entry2021 rfl

/-- C4 counterexample: the fixes are not order-insensitive on every record —
on a record with album present but artist and track both missing, applying the
track fill before the artist fill yields a different repaired record than the
implemented order (the track is left unfilled). -/
theorem fixes_not_order_insensitive :
    applyFixes [fixCap, fixFuture envNoParse, fixTrack, fixArtist, fixAlbum]
        orderSensitiveEntry
      ≠ fix_entry_consistency envNoParse orderSensitiveEntry := by decide

/-- The last element of a one-element-extended list. -/
theorem lastD_concat (d x : Int) : ∀ l : List Int, lastD d (l ++ [x]) = x
  | [] => rfl
  | [a] => rfl
  | a :: b :: t => by
    have h := lastD_concat d x (b :: t)
    simpa [lastD] using h

/-- The head of a one-element-extended nonempty list. -/
theorem headD_concat (x : Int) (l : List Int) (h : l ≠ []) :
    (l ++ [x]).headD 0 = l.headD 0 := by
  cases l with
  | nil => exact absurd rfl h
  | cons a t => rfl

/-- Extending a chain by one related element on the right. -/
theorem chain'_concat (R : Int → Int → Prop) :
    ∀ (l : List Int) (x : Int), List.Chain' R l → l ≠ [] → R (lastD 0 l) x →
      List.Chain' R (l ++ [x])
  | [], x, _, h, _ => absurd rfl h
  | [a], x, _, _, hr => by
    simpa [List.chain'_cons] using hr
  | a :: b :: t, x, hc, _, hr => by
    rw [List.cons_append]
    rw [List.chain'_cons] at hc
    have htail := chain'_concat R (b :: t) x hc.2 (by simp) (by simpa [lastD] using hr)
    rw [show (b :: t) ++ [x] = b :: (t ++ [x]) from rfl] at htail
    exact (List.chain'_cons).mpr ⟨hc.1, htail⟩

/-- The session loop of the source equals the specification grouping mapped to
its (first play, last play) endpoints. -/
theorem sessionsLoop_eq_runs (gap : Int) :
    ∀ (rest cur : List Int) (prev : Int), cur ≠ [] → lastD 0 cur = prev →
      sessionsLoop gap (cur.headD 0) prev rest
        = (runsLoop gap cur prev rest).map (fun b => (b.headD 0, lastD 0 b)) := by
  intro rest
  induction rest with
  | nil =>
    intro cur prev hne hlast
    simp [sessionsLoop, runsLoop, hlast]
  | cons t ts ih =>
    intro cur prev hne hlast
    simp only [sessionsLoop, runsLoop]
    by_cases hgap : gap < t - prev
    · simp only [if_pos hgap, List.map_cons]
      have h1 := ih [t] t (by simp) (by simp [lastD])
      simp only [List.headD_cons] at h1
      rw [h1, hlast]
    · simp only [if_neg hgap]
      have h1 := ih (cur ++ [t]) t (by simp) (lastD_concat 0 t cur)
      rw [headD_concat t cur hne] at h1
      exact h1

/-- Code/specification correspondence for whole play lists. -/
theorem calc_sessions_eq (gap : Int) (times : List Int) :
    calc_sessions gap times
      = (session_runs gap (pySort times)).map (fun b => (b.headD 0, lastD 0 b)) := by
  unfold calc_sessions session_runs
  cases h : pySort times with
  | nil => rfl
  | cons t rest =>
    have h1 := sessionsLoop_eq_runs gap rest [t] t (by simp) (by simp [lastD])
    simpa using h1

/-- The specification grouping concatenates back to its input. -/
theorem runsLoop_join (gap : Int) :
    ∀ (rest cur : List Int) (prev : Int), (runsLoop gap cur prev rest).flatten = cur ++ rest := by
  intro rest
  induction rest with
  | nil => intro cur prev; simp [runsLoop]
  | cons t ts ih =>
    intro cur prev
    simp only [runsLoop]
    by_cases hgap : gap < t - prev
    · simp [if_pos hgap, ih]
    · simp [if_neg hgap, ih]

/-- Every block the grouping produces is a nonempty run with consecutive gaps
at most `gap`. -/
theorem runsLoop_blocks (gap : Int) :
    ∀ (rest cur : List Int) (prev : Int), cur ≠ [] → lastD 0 cur = prev →
      List.Chain' (fun a c => c - a ≤ gap) cur →
      ∀ b ∈ runsLoop gap cur prev rest,
        b ≠ [] ∧ List.Chain' (fun a c => c - a ≤ gap) b := by
  intro rest
  induction rest with
  | nil =>
    intro cur prev hne hlast hch b hb
    simp only [runsLoop, List.mem_singleton] at hb
    exact hb ▸ ⟨hne, hch⟩
  | cons t ts ih =>
    intro cur prev hne hlast hch b hb
    simp only [runsLoop] at hb
    by_cases hgap : gap < t - prev
    · rw [if_pos hgap] at hb
      rcases List.mem_cons.mp hb with rfl | hb'
      · exact ⟨hne, hch⟩
      · exact ih [t] t (by simp) (by simp [lastD]) (by simp) b hb'
    · rw [if_neg hgap] at hb
      refine ih (cur ++ [t]) t (by simp) (lastD_concat 0 t cur) ?_ b hb
      exact chain'_concat _ cur t hch hne (by rw [hlast]; omega)

/-- The grouping never returns an empty block list. -/
theorem runsLoop_ne_nil (gap : Int) :
    ∀ (rest cur : List Int) (prev : Int), runsLoop gap cur prev rest ≠ [] := by
  intro rest
  induction rest with
  | nil => intro cur prev; simp [runsLoop]
  | cons t ts ih =>
    intro cur prev
    simp only [runsLoop]
    by_cases hgap : gap < t - prev
    · simp [if_pos hgap]
    · simp only [if_neg hgap]; exact ih _ _

/-- The first block the grouping produces starts with the current run's head. -/
theorem runsLoop_head (gap : Int) :
    ∀ (rest cur : List Int) (prev : Int), cur ≠ [] →
      ((runsLoop gap cur prev rest).headD []).headD 0 = cur.headD 0 := by
  intro rest
  induction rest with
  | nil => intro cur prev hne; simp [runsLoop]
  | cons t ts ih =>
    intro cur prev hne
    simp only [runsLoop]
    by_cases hgap : gap < t - prev
    · simp [if_pos hgap]
    · simp only [if_neg hgap]
      rw [ih (cur ++ [t]) t (by simp), headD_concat t cur hne]

/-- Consecutive blocks of the grouping are separated by more than `gap`:
each block is maximal. -/
theorem runsLoop_sep (gap : Int) :
    ∀ (rest cur : List Int) (prev : Int), cur ≠ [] → lastD 0 cur = prev →
      List.Chain' (fun b₁ b₂ => gap < b₂.headD 0 - lastD 0 b₁)
        (runsLoop gap cur prev rest) := by
  intro rest
  induction rest with
  | nil => intro cur prev hne hlast; simp [runsLoop]
  | cons t ts ih =>
    intro cur prev hne hlast
    simp only [runsLoop]
    by_cases hgap : gap < t - prev
    · simp only [if_pos hgap]
      cases hL : runsLoop gap [t] t ts with
      | nil => exact absurd hL (runsLoop_ne_nil gap ts [t] t)
      | cons b L =>
        rw [List.chain'_cons]
        constructor
        · have hh := runsLoop_head gap ts [t] t (by simp)
          rw [hL] at hh
          simp only [List.headD_cons] at hh
          rw [hh, hlast]
          simpa using hgap
        · have := ih [t] t (by simp) (by simp [lastD])
          rw [hL] at this
          exact this
    · simp only [if_neg hgap]
      exact ih (cur ++ [t]) t (by simp) (lastD_concat 0 t cur)

/-- C6: the sessions of `calculate_session_stats` are exactly the endpoint
pairs of the partition of the sorted play times into maximal runs whose
consecutive plays are at most `gap` apart (the blocks concatenate back to the
sorted list, each block is a nonempty run, and consecutive blocks are more
than `gap` apart); for plays at 0, 10, 45 and 50 minutes with a 30-minute
cutoff this yields exactly the 2 sessions {0,10} and {45,50}. -/
theorem session_segmentation :
    (∀ (gap : Int) (times : List Int),
        calc_sessions gap times
          = (session_runs gap (pySort times)).map (fun b => (b.headD 0, lastD 0 b)) ∧
        (session_runs gap (pySort times)).flatten = pySort times ∧
        (∀ b ∈ session_runs gap (pySort times),
            b ≠ [] ∧ List.Chain' (fun a c => c - a ≤ gap) b) ∧
        List.Chain' (fun b₁ b₂ => gap < b₂.headD 0 - lastD 0 b₁)
          (session_runs gap (pySort times))) ∧
    calc_sessions 1800 [0, 600, 2700, 3000] = [(0, 600), (2700, 3000)] ∧
    session_runs 1800 (pySort [0, 600, 2700, 3000]) = [[0, 600], [2700, 3000]] := by
  refine ⟨?_, by decide, by decide⟩
  intro gap times
  refine ⟨calc_sessions_eq gap times, ?_, ?_, ?_⟩
  · unfold session_runs
    cases h : pySort times with
    | nil => rfl
    | cons t rest => simpa using runsLoop_join gap rest [t] t
  · unfold session_runs
    cases h : pySort times with
    | nil => intro b hb; simp at hb
    | cons t rest =>
      exact runsLoop_blocks gap rest [t] t (by simp) (by simp [lastD]) (by simp)
  · unfold session_runs
    cases h : pySort times with
    | nil => simp
    | cons t rest => exact runsLoop_sep gap rest [t] t (by simp) (by simp [lastD])

/-- C6 witness: the first concrete session block is a nonempty run with gaps
at most 30 minutes. -/
theorem session_segmentation_witness :
    ([0, 600] : List Int) ≠ [] ∧
    List.Chain' (fun a c => c - a ≤ (1800 : Int)) [0, 600] :=
  (session_segmentation.1 1800 [0, 600, 2700, 3000]).2.2.1 [0, 600] (by decide)

/-- Key membership in the dedup dict matches an entry-level scan when every
stored key is the key of its entry. -/
theorem hasKey_eq_any (k : String) :
    ∀ u : List (String × Entry), (∀ p ∈ u, p.1 = entry_key p.2) →
      hasKey u k = (u.map Prod.snd).any (fun e0 => decide (entry_key e0 = k)) := by
  intro u
  induction u with
  | nil => intro _; rfl
  | cons p rest ih =>
    intro hinv
    have hp : p.1 = entry_key p.2 := hinv p (List.mem_cons_self _ _)
    have hrest := ih (fun q hq => hinv q (List.mem_cons_of_mem _ hq))
    by_cases h : k = entry_key p.2
    · simp [hasKey, List.any_cons, hp, h]
    · have h' : ¬ entry_key p.2 = k := fun hx => h hx.symm
      simp [hasKey, List.any_cons, hp, h, h', hrest]

/-- An absent key is the key of no stored pair. -/
theorem hasKey_false_not_mem (k : String) :
    ∀ u : List (String × Entry), hasKey u k = false → k ∉ u.map Prod.fst := by
  intro u
  induction u with
  | nil => intro _; simp
  | cons p rest ih =>
    intro h
    simp only [hasKey] at h
    by_cases hk : k = p.1
    · rw [if_pos hk] at h; exact absurd h (by simp)
    · rw [if_neg hk] at h
      simp only [List.map_cons, List.mem_cons]
      exact fun hx => hx.elim hk (fun hm => ih h hm)

/-- Key membership distributes over dict concatenation. -/
theorem hasKey_append (k : String) :
    ∀ u v : List (String × Entry), hasKey (u ++ v) k = (hasKey u k || hasKey v k) := by
  intro u v
  induction u with
  | nil => simp [hasKey]
  | cons p rest ih =>
    by_cases hk : k = p.1 <;> simp [hasKey, hk, ih]

/-- The dedup loop, projected to its stored entries, is the first-seen-per-key
fold of the claim (with a generalised starting dict). -/
theorem dedupLoop_map_snd :
    ∀ (es : List Entry) (u : List (String × Entry)) (d : Nat),
      (∀ p ∈ u, p.1 = entry_key p.2) →
      ((dedupLoop es u d).1).map Prod.snd
        = es.foldl (fun acc e =>
            if acc.any (fun e0 => decide (entry_key e0 = entry_key e)) then acc
            else acc ++ [e]) (u.map Prod.snd) := by
  intro es
  induction es with
  | nil => intro u d hinv; rfl
  | cons e es ih =>
    intro u d hinv
    simp only [dedupLoop, process_entry_for_deduplication, List.foldl_cons]
    rw [← hasKey_eq_any (entry_key e) u hinv]
    by_cases hk : hasKey u (entry_key e)
    · simp only [hk, if_true]
      exact ih u (d + 1) hinv
    · simp only [hk, if_false, Bool.false_eq_true]
      have hinv' : ∀ p ∈ u ++ [(entry_key e, e)], p.1 = entry_key p.2 := by
        intro p hp
        rcases List.mem_append.mp hp with hp | hp
        · exact hinv p hp
        · simp only [List.mem_singleton] at hp
          rw [hp]
      have := ih (u ++ [(entry_key e, e)]) d hinv'
      simpa using this

/-- The dedup loop preserves the stored-key invariant. -/
theorem dedupLoop_inv :
    ∀ (es : List Entry) (u : List (String × Entry)) (d : Nat),
      (∀ p ∈ u, p.1 = entry_key p.2) →
      ∀ p ∈ (dedupLoop es u d).1, p.1 = entry_key p.2 := by
  intro es
  induction es with
  | nil => intro u d hinv; exact hinv
  | cons e es ih =>
    intro u d hinv
    simp only [dedupLoop, process_entry_for_deduplication]
    by_cases hk : hasKey u (entry_key e)
    · simp only [hk, if_true]
      exact ih u (d + 1) hinv
    · simp only [hk, if_false, Bool.false_eq_true]
      refine ih (u ++ [(entry_key e, e)]) d ?_
      intro p hp
      rcases List.mem_append.mp hp with hp | hp
      · exact hinv p hp
      · simp only [List.mem_singleton] at hp
        rw [hp]

/-- The dedup loop keeps the stored keys pairwise distinct. -/
theorem dedupLoop_keys_nodup :
    ∀ (es : List Entry) (u : List (String × Entry)) (d : Nat),
      (u.map Prod.fst).Nodup → ((dedupLoop es u d).1.map Prod.fst).Nodup := by
  intro es
  induction es with
  | nil => intro u d h; exact h
  | cons e es ih =>
    intro u d h
    simp only [dedupLoop, process_entry_for_deduplication]
    by_cases hk : hasKey u (entry_key e)
    · simp only [hk, if_true]
      exact ih u (d + 1) h
    · simp only [hk, if_false, Bool.false_eq_true]
      refine ih (u ++ [(entry_key e, e)]) d ?_
      have hnot := hasKey_false_not_mem (entry_key e) u (by simpa using hk)
      simp only [List.map_append, List.map_cons, List.map_nil]
      refine List.Nodup.append h (by simp) ?_
      intro a ha hb
      simp only [List.mem_singleton] at hb
      exact hnot (hb ▸ ha)

/-- On an input whose keys are already pairwise distinct, the dedup loop
appends everything and counts no duplicate. -/
theorem dedupLoop_nodup_id :
    ∀ (es : List Entry) (u : List (String × Entry)) (d : Nat),
      (es.map entry_key).Nodup →
      (∀ e ∈ es, hasKey u (entry_key e) = false) →
      dedupLoop es u d = (u ++ es.map (fun e => (entry_key e, e)), d) := by
  intro es
  induction es with
  | nil => intro u d _ _; simp [dedupLoop]
  | cons e es ih =>
    intro u d hnd hu
    have hk : hasKey u (entry_key e) = false := hu e (List.mem_cons_self _ _)
    simp only [dedupLoop, process_entry_for_deduplication, hk, if_false, Bool.false_eq_true]
    have hnd' : (es.map entry_key).Nodup := by
      simp only [List.map_cons, List.nodup_cons] at hnd
      exact hnd.2
    have hne : ∀ e' ∈ es, ¬ entry_key e' = entry_key e := by
      intro e' he' hx
      simp only [List.map_cons, List.nodup_cons] at hnd
      exact hnd.1 (hx ▸ List.mem_map_of_mem entry_key he')
    have hu' : ∀ e' ∈ es, hasKey (u ++ [(entry_key e, e)]) (entry_key e') = false := by
      intro e' he'
      rw [hasKey_append]
      have h1 : hasKey [(entry_key e, e)] (entry_key e') = false := by
        simp [hasKey, hne e' he']
      simp [hu e' (List.mem_cons_of_mem _ he'), h1]
    rw [ih (u ++ [(entry_key e, e)]) d hnd' hu']
    simp

/-- C8 (amended): `check_for_duplicates` keeps, in order, the first-seen
record for each string key `f"{ts}|{track}|{artist}|{ms_played}"`, and it is
idempotent — rerunning it on its own output returns the same list and detects
zero further duplicates. -/
theorem dedup_idempotent_first_seen (l : List Entry) :
    check_for_duplicates l = keep_first_by_key l ∧
    check_for_duplicates (check_for_duplicates l) = check_for_duplicates l ∧
    duplicates_found (check_for_duplicates l) = 0 := by
  have hmain : ∀ l' : List Entry, check_for_duplicates l' = keep_first_by_key l' := by
    intro l'
    cases l' with
    | nil => rfl
    | cons e es =>
      unfold check_for_duplicates keep_first_by_key
      rw [if_neg (by simp)]
      exact dedupLoop_map_snd (e :: es) [] 0 (by simp)
  refine ⟨hmain l, ?_⟩
  cases hl : l with
  | nil => exact ⟨rfl, rfl⟩
  | cons e es =>
    have hne : ¬ (e :: es) = ([] : List Entry) := by simp
    have hkeys : ((check_for_duplicates (e :: es)).map entry_key).Nodup := by
      unfold check_for_duplicates
      rw [if_neg hne]
      have hinv := dedupLoop_inv (e :: es) [] 0 (by simp)
      have hnd := dedupLoop_keys_nodup (e :: es) [] 0 (by simp)
      have hmap : ((dedupLoop (e :: es) [] 0).1.map Prod.snd).map entry_key
          = (dedupLoop (e :: es) [] 0).1.map Prod.fst := by
        rw [List.map_map]
        exact List.map_congr_left (fun p hp => (hinv p hp).symm)
      rw [hmap]
      exact hnd
    set r := check_for_duplicates (e :: es) with hr
    cases hrc : r with
    | nil => exact ⟨rfl, rfl⟩
    | cons e' es' =>
      have hnd : ((e' :: es').map entry_key).Nodup := by rw [← hrc]; exact hkeys
      have hid := dedupLoop_nodup_id (e' :: es') [] 0 hnd (fun e0 _ => rfl)
      constructor
      · unfold check_for_duplicates
        rw [if_neg (by simp), hid]
        simp [Function.comp_def]
      · unfold duplicates_found
        rw [if_neg (by simp), hid]

/-- C8 witness: on a two-record list with distinct keys the dedup is the
first-seen fold, idempotent, and duplicate-free. -/
theorem dedup_idempotent_first_seen_witness :
    check_for_duplicates [entry2021, entry2022] = keep_first_by_key [entry2021, entry2022] ∧
    check_for_duplicates (check_for_duplicates [entry2021, entry2022])
      = check_for_duplicates [entry2021, entry2022] ∧
    duplicates_found (check_for_duplicates [entry2021, entry2022]) = 0 :=
  dedup_idempotent_first_seen [entry2021, entry2022]

/-- C8 counterexample: the implemented identity key is the `"|"`-joined
string, not the field tuple — two records with different (timestamp, track,
artist, ms) tuples whose fields contain the delimiter collide, so the second
first-seen tuple is dropped, contradicting first-seen-per-tuple keeping. -/
theorem dedup_key_not_identity_tuple :
    check_for_duplicates [dupA, dupB] = [dupA] ∧
    entry_identity dupA ≠ entry_identity dupB ∧
    check_for_duplicates [dupA, dupB] ≠ keep_first_by_identity [dupA, dupB] := by
  refine ⟨by decide, by decide, by decide⟩
